import Mathlib

/-!
# Verification of the wtpy Futu integration layer

Shallow embedding of the Futu broker adapters (`FutuExecuter`, `FutuDataLoader`)
and the two demo strategies (`DualMAHK`, `StraDualThrustHK`) of the repository,
together with theorems settling the specification claims about them.

Python floats are modelled as `ℚ`, Python ints as `ℤ` or `ℕ`, the broker's
fallible calls as explicit result values, and the position dictionary as an
association list with the `dict.get(code, 0.0)` read convention.
-/

namespace Wtpy

/-! ## FutuExecuter (src/wtpy/futu/FutuExecuter.py)

The executer mirrors positions in `self.__current_positions__ : Dict[str, float]`.
`set_position` computes the delta between the target and the mirrored position
and delegates to `_place_order`; `_place_order` asks the broker for a market
snapshot, places the order, and updates the mirror only on `RET_OK`. -/

/-- Trade side constants of the broker SDK (`TrdSide.BUY` / `TrdSide.SELL`). -/
inductive TrdSide
  | BUY
  | SELL
deriving DecidableEq, Repr

/-- An order request issued by the executer to `_place_order`:
code, quantity and side. -/
structure Order where
  code : String
  qty : ℚ
  side : TrdSide
deriving DecidableEq, Repr

/-- Result of `quote_ctx.get_market_snapshot([code])` in `_place_order`:
an exception, an error return code, an OK return with an empty frame, or an
OK return carrying the `last_price` field of the first row. -/
inductive SnapResult
  | exc
  | err
  | okEmpty
  | ok (lastPrice : ℚ)
deriving DecidableEq, Repr

/-- Whether the snapshot call yielded a usable price
(return code `RET_OK` and a non-empty frame). -/
def SnapResult.hasPrice : SnapResult → Bool
  | .ok _ => true
  | _ => false

/-- Result of `trade_ctx.place_order(...)`: an exception, an error return
code, or `RET_OK`. -/
inductive PlaceResult
  | exc
  | err
  | ok
deriving DecidableEq, Repr

/-- The executer's local position dictionary `__current_positions__`. -/
abbrev PosMap := List (String × ℚ)

/-- `positions.get(code, 0.0)`: the mirrored position, `0` when absent. -/
def posGet (m : PosMap) (code : String) : ℚ :=
  (m.lookup code).getD 0

/-- `positions[code] = v`: dictionary update. -/
def posSet (m : PosMap) (code : String) (v : ℚ) : PosMap :=
  (code, v) :: m.filter (fun p => p.1 != code)

/-- `FutuExecuter._place_order(code, qty, trd_side)` acting on the mirrored
position map.  The broker interactions are passed in as explicit results:
`snap` for the market-snapshot call and `pl` for the `place_order` call
(the latter only happens when the snapshot produced a price).  On `RET_OK`
the mirror is updated by `get(code, 0) ± qty`; on any error return, empty
price data, or exception it is left untouched. -/
def place_order (m : PosMap) (code : String) (qty : ℚ) (side : TrdSide)
    (snap : SnapResult) (pl : PlaceResult) : PosMap :=
  match snap with
  | .exc => m
  | .err => m
  | .okEmpty => m
  | .ok _ =>
    match pl with
    | .ok =>
      match side with
      | .BUY => posSet m code (posGet m code + qty)
      | .SELL => posSet m code (posGet m code - qty)
    | .err => m
    | .exc => m

/-- `FutuExecuter.set_position(stdCode, targetPos)`.  Returns the updated
mirror together with the list of order requests delegated to `_place_order`.
Not connected: return immediately.  Otherwise `diff = targetPos -
positions.get(stdCode, 0.0)`; a `|diff| < 0.01` delta is ignored; a positive
delta buys `|diff|`, a negative one sells `|diff|`. -/
def set_position (connected : Bool) (m : PosMap) (stdCode : String)
    (targetPos : ℚ) (snap : SnapResult) (pl : PlaceResult) :
    PosMap × List Order :=
  if connected = false then (m, [])
  else
    let diff := targetPos - posGet m stdCode
    if |diff| < 1/100 then (m, [])
    else if 0 < diff then
      (place_order m stdCode |diff| .BUY snap pl, [⟨stdCode, |diff|, .BUY⟩])
    else
      (place_order m stdCode |diff| .SELL snap pl, [⟨stdCode, |diff|, .SELL⟩])

theorem posGet_posSet_same (m : PosMap) (code : String) (v : ℚ) :
    posGet (posSet m code v) code = v := by
  simp [posGet, posSet]

theorem lookup_filter_ne (m : PosMap) (code c : String) (h : c ≠ code) :
    (m.filter (fun p => p.1 != code)).lookup c = m.lookup c := by
  induction m with
  | nil => simp
  | cons hd tl ih =>
    by_cases hc : hd.1 = code
    · simp only [List.filter_cons, hc, bne_self_eq_false, Bool.false_eq_true,
        if_false]
      rw [ih]
      rw [List.lookup_cons]
      simp [show (c == hd.1) = false by simp [hc, h]]
    · simp only [List.filter_cons, show (hd.1 != code) = true by simp [hc],
        if_true]
      rw [List.lookup_cons, List.lookup_cons]
      by_cases hch : c = hd.1
      · simp [hch]
      · simp [show (c == hd.1) = false by simp [hch], ih]

theorem posGet_posSet_ne (m : PosMap) (code c : String) (v : ℚ) (h : c ≠ code) :
    posGet (posSet m code v) c = posGet m c := by
  simp only [posGet, posSet, List.lookup_cons]
  rw [show (c == code) = false by simp [h]]
  simp only [lookup_filter_ne m code c h]

/-- C1: in the connected state, `set_position` computes
`diff = targetPos - positions.get(stdCode, 0.0)` (and `get` defaults to `0`
when the code is absent), and when `|diff| ≥ 0.01` it issues exactly one
order of quantity `|diff|`: a BUY when `diff > 0`, a SELL when `diff < 0`. -/
theorem set_position_issues_delta_order (m : PosMap) (stdCode : String)
    (targetPos : ℚ) (snap : SnapResult) (pl : PlaceResult)
    (hd : 1/100 ≤ |targetPos - posGet m stdCode|) :
    (m.lookup stdCode = none → posGet m stdCode = 0) ∧
    (set_position true m stdCode targetPos snap pl).2 =
      [⟨stdCode, |targetPos - posGet m stdCode|,
        if 0 < targetPos - posGet m stdCode then .BUY else .SELL⟩] ∧
    (0 < targetPos - posGet m stdCode →
      (set_position true m stdCode targetPos snap pl).2 =
        [⟨stdCode, |targetPos - posGet m stdCode|, .BUY⟩]) ∧
    (targetPos - posGet m stdCode < 0 →
      (set_position true m stdCode targetPos snap pl).2 =
        [⟨stdCode, |targetPos - posGet m stdCode|, .SELL⟩]) := by
  refine ⟨fun h => by simp [posGet, h], ?_, ?_, ?_⟩ <;>
    simp only [set_position, Bool.true_eq_false, if_false, not_lt.mpr hd,
      if_false]
  · split <;> simp_all
  · intro h; simp [h]
  · intro h; simp [not_lt.mpr h.le, h.ne]

theorem set_position_issues_delta_order_witness :
    (1/100 : ℚ) ≤ |(3 : ℚ) - posGet [] "HK.00700"| ∧
    (set_position true [] "HK.00700" 3 .okEmpty .ok).2 =
      [⟨"HK.00700", |(3 : ℚ) - posGet [] "HK.00700"|,
        if 0 < (3 : ℚ) - posGet [] "HK.00700" then .BUY else .SELL⟩] := by
  have h : (1/100 : ℚ) ≤ |(3 : ℚ) - posGet [] "HK.00700"| := by
    simp [posGet]; norm_num
  exact ⟨h, (set_position_issues_delta_order [] "HK.00700" 3 .okEmpty .ok h).2.1⟩

/-- C7: in `_place_order` the mirrored position for the code changes by
exactly `+qty` on a BUY and `-qty` on a SELL if and only if the broker's
`place_order` call returned `RET_OK` (which requires the snapshot to have
produced a price); on any error return, empty price data, or exception the
map is left unchanged, and other codes are never touched. -/
theorem place_order_mirror_update (m : PosMap) (code : String) (qty : ℚ)
    (side : TrdSide) (snap : SnapResult) (pl : PlaceResult) :
    posGet (place_order m code qty side snap pl) code =
      posGet m code +
        (if snap.hasPrice ∧ pl = .ok then
          (match side with | .BUY => qty | .SELL => -qty)
         else 0) ∧
    (∀ c, c ≠ code →
      posGet (place_order m code qty side snap pl) c = posGet m c) ∧
    (¬(snap.hasPrice ∧ pl = .ok) → place_order m code qty side snap pl = m) := by
  refine ⟨?_, ?_, ?_⟩
  · cases snap <;> cases pl <;> cases side <;>
      simp [place_order, SnapResult.hasPrice, posGet_posSet_same] <;> ring
  · intro c hc
    cases snap <;> cases pl <;> cases side <;>
      simp [place_order, SnapResult.hasPrice, posGet_posSet_ne _ _ _ _ hc]
  · intro h
    cases snap <;> cases pl <;>
      simp_all [place_order, SnapResult.hasPrice]

theorem place_order_mirror_update_witness :
    posGet (place_order [("HK.00700", 5)] "HK.00700" 2 .BUY (.ok 10) .ok)
        "HK.00700" =
      posGet [("HK.00700", 5)] "HK.00700" +
        (if (SnapResult.ok 10).hasPrice ∧ PlaceResult.ok = .ok then (2 : ℚ)
         else 0) ∧
    ("HK.00001" : String) ≠ "HK.00700" ∧
    posGet (place_order [("HK.00700", 5)] "HK.00700" 2 .BUY (.ok 10) .ok)
        "HK.00001" = posGet [("HK.00700", 5)] "HK.00001" := by
  have h := place_order_mirror_update [("HK.00700", 5)] "HK.00700" 2 .BUY
    (.ok 10) .ok
  have hne : ("HK.00001" : String) ≠ "HK.00700" := by decide
  exact ⟨h.1, hne, h.2.1 "HK.00001" hne⟩

/-- C9: `set_position` places no order and leaves the mirror unchanged when
the delta is below `0.01` in absolute value, and likewise returns without
doing anything when the executer is not connected. -/
theorem set_position_no_op (m : PosMap) (stdCode : String) (targetPos : ℚ)
    (snap : SnapResult) (pl : PlaceResult) :
    (|targetPos - posGet m stdCode| < 1/100 →
      set_position true m stdCode targetPos snap pl = (m, [])) ∧
    set_position false m stdCode targetPos snap pl = (m, []) := by
  constructor
  · intro h
    simp only [set_position, Bool.true_eq_false, if_false, if_pos h]
  · simp [set_position]

theorem set_position_no_op_witness :
    |(5 : ℚ) - posGet [("HK.00700", 5)] "HK.00700"| < 1/100 ∧
    set_position true [("HK.00700", 5)] "HK.00700" 5 .okEmpty .ok =
      ([("HK.00700", 5)], []) := by
  have h : |(5 : ℚ) - posGet [("HK.00700", 5)] "HK.00700"| < 1/100 := by
    norm_num [posGet]
  exact ⟨h,
    (set_position_no_op [("HK.00700", 5)] "HK.00700" 5 .okEmpty .ok).1 h⟩

/-! ## FutuDataLoader (src/wtpy/futu/FutuDataLoader.py)

`load_bars` maps the wtpy period string to a broker K-line type, requests
history K-lines, and converts the broker frame to the wtpy layout.
`_convert_to_wtpy_format` rewrites each broker bar field by field and sorts
the result by the integer time stamp. -/

/-- The `time_key` column of a broker K-line row, as calendar fields. -/
structure TimeKey where
  year : ℕ
  month : ℕ
  day : ℕ
  hour : ℕ
  minute : ℕ
  second : ℕ
deriving DecidableEq, Repr

/-- `strftime('%Y%m%d%H%M%S')` followed by the cast to `int64`. -/
def TimeKey.toYmdhms (t : TimeKey) : ℕ :=
  t.year * 10000000000 + t.month * 100000000 + t.day * 1000000 +
    t.hour * 10000 + t.minute * 100 + t.second

/-- `strftime('%Y%m%d')` followed by the cast to `int32`. -/
def TimeKey.toYmd (t : TimeKey) : ℕ :=
  t.year * 10000 + t.month * 100 + t.day

/-- One row of the broker's K-line frame. -/
structure FutuBar where
  time_key : TimeKey
  openPrice : ℚ
  high : ℚ
  low : ℚ
  close : ℚ
  volume : ℤ
  turnover : ℚ
deriving DecidableEq, Repr

/-- One row of the wtpy-format frame built by `_convert_to_wtpy_format`. -/
structure WtpyBar where
  time : ℕ
  date : ℕ
  openPrice : ℚ
  high : ℚ
  low : ℚ
  close : ℚ
  volume : ℤ
  turnover : ℚ
  interest : ℕ
deriving DecidableEq, Repr

/-- The field-by-field translation of one broker bar (`hasTurnover` records
whether the source frame has a `turnover` column; when it does not, the
output column is the constant `0.0`). -/
def convertBar (hasTurnover : Bool) (b : FutuBar) : WtpyBar :=
  { time := b.time_key.toYmdhms
    date := b.time_key.toYmd
    openPrice := b.openPrice
    high := b.high
    low := b.low
    close := b.close
    volume := b.volume
    turnover := if hasTurnover then b.turnover else 0
    interest := 0 }

/-- Row order on the wtpy frame used by `sort_values('time')`. -/
def timeLe (a b : WtpyBar) : Prop := a.time ≤ b.time

instance : DecidableRel timeLe := fun a b => Nat.decLe a.time b.time

instance : IsTotal WtpyBar timeLe := ⟨fun a b => Nat.le_total a.time b.time⟩

instance : IsTrans WtpyBar timeLe := ⟨fun _ _ _ => Nat.le_trans⟩

/-- `FutuDataLoader._convert_to_wtpy_format`: build the wtpy columns from the
broker frame, then `sort_values('time').reset_index(drop=True)`. -/
def convert_to_wtpy_format (hasTurnover : Bool) (rows : List FutuBar) :
    List WtpyBar :=
  List.insertionSort timeLe (rows.map (convertBar hasTurnover))

/-- `FutuDataLoader._convert_period`: the literal sixteen-entry period
mapping table, `dict.get` semantics (broker `KLType` constants kept as
strings). -/
def convert_period (period : String) : Option String :=
  (([("m1", "K_1M"), ("m5", "K_5M"), ("m15", "K_15M"), ("m30", "K_30M"),
     ("h1", "K_60M"), ("d1", "K_DAY"), ("w1", "K_WEEK"), ("M1", "K_MON"),
     ("1m", "K_1M"), ("5m", "K_5M"), ("15m", "K_15M"), ("30m", "K_30M"),
     ("1h", "K_60M"), ("1d", "K_DAY"), ("1w", "K_WEEK"), ("1M", "K_MON")] :
    List (String × String)).lookup period)

/-- Result of `quote_ctx.request_history_kline(...)` in `load_bars`: an
exception, a non-`RET_OK` return code, or `RET_OK` with the frame's rows and
whether the frame has a `turnover` column. -/
inductive KlineResp
  | exc
  | err
  | ok (rows : List FutuBar) (hasTurnover : Bool)
deriving DecidableEq, Repr

/-- `FutuDataLoader.load_bars`: `None` when the loader is uninitialized, the
period has no mapping, the broker call errors or raises, or the frame is
empty; otherwise the converted frame. -/
def load_bars (initialized : Bool) (period : String) (resp : KlineResp) :
    Option (List WtpyBar) :=
  if initialized = false then none
  else
    match convert_period period with
    | none => none
    | some _ =>
      match resp with
      | .exc => none
      | .err => none
      | .ok rows hasTurnover =>
        if rows.isEmpty then none
        else some (convert_to_wtpy_format hasTurnover rows)

/-- C5: `load_bars` returns `None` exactly when the loader is uninitialized,
the period string has no mapping, the broker call returns a non-OK code,
the broker returns an empty frame, or an exception occurs; otherwise it
returns the converted frame. -/
theorem load_bars_none_iff (initialized : Bool) (period : String)
    (resp : KlineResp) :
    (load_bars initialized period resp = none ↔
      initialized = false ∨ convert_period period = none ∨ resp = .exc ∨
        resp = .err ∨ ∃ ht, resp = .ok [] ht) ∧
    (∀ rows hasTurnover, initialized = true →
      (convert_period period).isSome = true → resp = .ok rows hasTurnover →
      rows ≠ [] →
      load_bars initialized period resp =
        some (convert_to_wtpy_format hasTurnover rows)) := by
  constructor
  · cases initialized with
    | false => simp [load_bars]
    | true =>
      cases hcp : convert_period period with
      | none => simp [load_bars, hcp]
      | some k =>
        cases resp with
        | exc => simp [load_bars, hcp]
        | err => simp [load_bars, hcp]
        | ok rows hasTurnover =>
          cases rows with
          | nil => simp [load_bars, hcp]
          | cons hd tl => simp [load_bars, hcp]
  · rintro rows hasTurnover hinit hcp rfl hne
    subst hinit
    obtain ⟨k, hk⟩ := Option.isSome_iff_exists.mp hcp
    simp [load_bars, hk, hne]

theorem load_bars_none_iff_witness :
    ((true : Bool) = true ∧
      (convert_period "m5").isSome = true ∧
      KlineResp.err = KlineResp.err ∧
      load_bars true "m5" .err = none) ∧
    load_bars true "m5"
        (.ok [⟨⟨2023, 6, 1, 9, 30, 0⟩, 1, 2, 1, 2, 100, 5⟩] true) =
      some (convert_to_wtpy_format true
        [⟨⟨2023, 6, 1, 9, 30, 0⟩, 1, 2, 1, 2, 100, 5⟩]) := by
  refine ⟨⟨rfl, by decide, rfl, ?_⟩, ?_⟩
  · exact (load_bars_none_iff true "m5" .err).1.mpr (by simp)
  · exact (load_bars_none_iff true "m5"
      (.ok [⟨⟨2023, 6, 1, 9, 30, 0⟩, 1, 2, 1, 2, 100, 5⟩] true)).2
      [⟨⟨2023, 6, 1, 9, 30, 0⟩, 1, 2, 1, 2, 100, 5⟩] true rfl (by decide)
      rfl (by simp)

/-- C6: `_convert_to_wtpy_format` produces one output record per input bar
(a permutation of the field-by-field translations), the output is sorted in
ascending `time` order, and each bar's record carries the integer
`YYYYMMDDHHMMSS` time, integer `YYYYMMDD` date, copied OHLC, copied volume,
the turnover (or `0.0` when the source column is absent), and `interest = 0`. -/
theorem convert_to_wtpy_format_spec (hasTurnover : Bool)
    (rows : List FutuBar) :
    (convert_to_wtpy_format hasTurnover rows).length = rows.length ∧
    List.Sorted timeLe (convert_to_wtpy_format hasTurnover rows) ∧
    (convert_to_wtpy_format hasTurnover rows).Perm
      (rows.map (convertBar hasTurnover)) ∧
    ∀ b ∈ rows, ∃ r ∈ convert_to_wtpy_format hasTurnover rows,
      r.time = b.time_key.toYmdhms ∧ r.date = b.time_key.toYmd ∧
      r.openPrice = b.openPrice ∧ r.high = b.high ∧ r.low = b.low ∧
      r.close = b.close ∧ r.volume = b.volume ∧
      r.turnover = (if hasTurnover then b.turnover else 0) ∧
      r.interest = 0 := by
  refine ⟨?_, ?_, ?_, ?_⟩
  · rw [convert_to_wtpy_format,
      (List.perm_insertionSort timeLe _).length_eq, List.length_map]
  · exact List.sorted_insertionSort timeLe _
  · exact List.perm_insertionSort timeLe _
  · intro b hb
    refine ⟨convertBar hasTurnover b, ?_, rfl, rfl, rfl, rfl, rfl, rfl, rfl,
      rfl, rfl⟩
    rw [convert_to_wtpy_format, List.mem_insertionSort]
    exact List.mem_map_of_mem _ hb

theorem convert_to_wtpy_format_spec_witness :
    (⟨⟨2023, 6, 1, 9, 30, 0⟩, 1, 2, 1, 2, 100, 5⟩ : FutuBar) ∈
      [(⟨⟨2023, 6, 1, 9, 30, 0⟩, 1, 2, 1, 2, 100, 5⟩ : FutuBar)] ∧
    ∃ r ∈ convert_to_wtpy_format false
        [⟨⟨2023, 6, 1, 9, 30, 0⟩, 1, 2, 1, 2, 100, 5⟩],
      r.time = (⟨2023, 6, 1, 9, 30, 0⟩ : TimeKey).toYmdhms ∧
      r.date = (⟨2023, 6, 1, 9, 30, 0⟩ : TimeKey).toYmd ∧
      r.openPrice = 1 ∧ r.high = 2 ∧ r.low = 1 ∧ r.close = 2 ∧
      r.volume = 100 ∧ r.turnover = (if false then (5 : ℚ) else 0) ∧
      r.interest = 0 := by
  refine ⟨by simp, ?_⟩
  exact (convert_to_wtpy_format_spec false
    [⟨⟨2023, 6, 1, 9, 30, 0⟩, 1, 2, 1, 2, 100, 5⟩]).2.2.2
    ⟨⟨2023, 6, 1, 9, 30, 0⟩, 1, 2, 1, 2, 100, 5⟩ (by simp)

/-- C8: `_convert_period` returns a broker K-line type exactly for the
sixteen period strings of its table and `None` for every other string; in
particular `'d'` (the period configured by the dual moving-average backtest
driver) is not in the table, so `load_bars` returns `None` for it. -/
theorem convert_period_domain (period : String) :
    ((convert_period period).isSome = true ↔
      period ∈ ["m1", "m5", "m15", "m30", "h1", "d1", "w1", "M1",
                "1m", "5m", "15m", "30m", "1h", "1d", "1w", "1M"]) ∧
    convert_period "d" = none ∧
    (∀ (initialized : Bool) (resp : KlineResp),
      load_bars initialized "d" resp = none) := by
  refine ⟨?_, by decide, ?_⟩
  · simp only [convert_period, List.lookup_cons]
    repeat' split
    all_goals simp_all
  · intro initialized resp
    cases initialized with
    | false => simp [load_bars]
    | true => simp [load_bars, show convert_period "d" = none by decide]

/-! ## Demo strategies (src/demos/Strategies)

Both strategies are bar-callback handlers: each `on_calculate` reads the
K-line history and the engine-held position and either enters a long, exits
a long, or does nothing.  The engine context is abstracted into the inputs
(the close/high/low/open arrays and the current position) and the output
action. -/

/-- The order action a strategy callback performs on the engine context:
`stra_enter_long`, `stra_exit_long`, or nothing. -/
inductive StrategyAction
  | enterLong (qty : ℚ) (tag : String)
  | exitLong (qty : ℚ) (tag : String)
  | hold
deriving DecidableEq, Repr

/-- The last `n` entries of an array (`arr[-n:]` for `0 < n ≤ len`). -/
def lastN (l : List ℚ) (n : ℕ) : List ℚ := l.drop (l.length - n)

/-- Arithmetic mean of the last `n` entries: the value of
`talib.SMA(closes, n)[-1]` whenever it is defined (i.e. `0 < n ≤ len`). -/
def smaQ (closes : List ℚ) (n : ℕ) : ℚ := (lastN closes n).sum / n

/-- `talib.SMA(closes, n)[-1]` with `none` standing for NaN (fewer than `n`
closes) or an absent value. -/
def smaAt (closes : List ℚ) (n : ℕ) : Option ℚ :=
  if 0 < n ∧ n ≤ closes.length then some (smaQ closes n) else none

/-- `talib.SMA(closes, n)[-2] if len >= 2 else 0` of `DualMAHK.on_calculate`:
the SMA one bar back, the Python int `0` when the array is too short for a
`[-2]` index. -/
def smaPrev (closes : List ℚ) (n : ℕ) : Option ℚ :=
  if 2 ≤ closes.length then smaAt closes.dropLast n else some 0

/-- Python float comparison `a <= b` where either side may be NaN
(`none`): any comparison with NaN is false. -/
def oLe : Option ℚ → Option ℚ → Bool
  | some a, some b => decide (a ≤ b)
  | _, _ => false

/-- Python float comparison `a < b`; false when either side is NaN. -/
def oLt : Option ℚ → Option ℚ → Bool
  | some a, some b => decide (a < b)
  | _, _ => false

namespace DualMAHK

/-- `DualMAHK.on_calculate`: data-sufficiency check, two SMAs with their
previous values, NaN check on the current values, golden-cross/death-cross
signal, then the order logic (`max_pos // lot_size` lots of `lot_size`
shares on a golden cross from flat, full exit on a death cross when long). -/
def on_calculate (maShort maLong : ℕ) (maxPos lotSize : ℤ)
    (closes : List ℚ) (currentPos : ℚ) : StrategyAction :=
  if closes.length < maLong + 1 then .hold
  else
    let curS := smaAt closes maShort
    let curL := smaAt closes maLong
    if curS = none ∨ curL = none then .hold
    else
      let prevS := smaPrev closes maShort
      let prevL := smaPrev closes maLong
      let signal : ℤ :=
        if oLe prevS prevL ∧ oLt curL curS then 1
        else if oLe prevL prevS ∧ oLt curS curL then -1
        else 0
      if currentPos = 0 then
        if signal = 1 then
          let lots := Int.fdiv maxPos lotSize
          if 0 < lots then .enterLong ((lots * lotSize : ℤ) : ℚ) "ma_cross_buy"
          else .hold
        else .hold
      else if 0 < currentPos then
        if signal = -1 then .exitLong currentPos "ma_cross_sell" else .hold
      else .hold

theorem on_calculate_reduce (maShort maLong : ℕ) (maxPos lotSize : ℤ)
    (closes : List ℚ) (pos : ℚ)
    (hshort : 2 ≤ maShort) (hsl : maShort ≤ maLong)
    (hlen : maLong + 1 ≤ closes.length) :
    on_calculate maShort maLong maxPos lotSize closes pos =
      if pos = 0 then
        if smaQ closes.dropLast maShort ≤ smaQ closes.dropLast maLong ∧
            smaQ closes maLong < smaQ closes maShort then
          if 0 < Int.fdiv maxPos lotSize then
            .enterLong ((Int.fdiv maxPos lotSize * lotSize : ℤ) : ℚ)
              "ma_cross_buy"
          else .hold
        else .hold
      else if 0 < pos then
        if smaQ closes.dropLast maLong ≤ smaQ closes.dropLast maShort ∧
            smaQ closes maShort < smaQ closes maLong then
          .exitLong pos "ma_cross_sell"
        else .hold
      else .hold := by
  have h0S : 0 < maShort := by omega
  have h0L : 0 < maLong := by omega
  have hdl : closes.dropLast.length = closes.length - 1 :=
    List.length_dropLast _
  have hcS : smaAt closes maShort = some (smaQ closes maShort) := by
    rw [smaAt, if_pos ⟨h0S, by omega⟩]
  have hcL : smaAt closes maLong = some (smaQ closes maLong) := by
    rw [smaAt, if_pos ⟨h0L, by omega⟩]
  have hpS : smaPrev closes maShort =
      some (smaQ closes.dropLast maShort) := by
    rw [smaPrev, if_pos (by omega : 2 ≤ closes.length), smaAt,
      if_pos ⟨h0S, by rw [hdl]; omega⟩]
  have hpL : smaPrev closes maLong = some (smaQ closes.dropLast maLong) := by
    rw [smaPrev, if_pos (by omega : 2 ≤ closes.length), smaAt,
      if_pos ⟨h0L, by rw [hdl]; omega⟩]
  rw [on_calculate, if_neg (not_lt.mpr hlen), hcS, hcL, hpS, hpL]
  simp only [oLe, oLt, decide_eq_true_eq, reduceCtorEq, or_self, if_false,
    ite_false, ite_true]
  split_ifs <;> first | rfl | tauto | (exfalso; linarith)

/-- C2: with at least `ma_long + 1` bars of valid data, `on_calculate`
enters a long of `(max_pos // lot_size) * lot_size` shares when flat on a
golden cross (previous short MA ≤ previous long MA, current short MA >
current long MA) with `max_pos // lot_size > 0`, exits the entire long on a
death cross (previous short MA ≥ previous long MA, current short MA <
current long MA) when long, and places no order in every other case. -/
theorem on_calculate_spec (maShort maLong : ℕ) (maxPos lotSize : ℤ)
    (closes : List ℚ) (pos : ℚ)
    (hshort : 2 ≤ maShort) (hsl : maShort ≤ maLong)
    (hlen : maLong + 1 ≤ closes.length) :
    (pos = 0 ∧ smaQ closes.dropLast maShort ≤ smaQ closes.dropLast maLong ∧
        smaQ closes maLong < smaQ closes maShort ∧
        0 < Int.fdiv maxPos lotSize →
      on_calculate maShort maLong maxPos lotSize closes pos =
        .enterLong ((Int.fdiv maxPos lotSize * lotSize : ℤ) : ℚ)
          "ma_cross_buy") ∧
    (0 < pos ∧ smaQ closes.dropLast maLong ≤ smaQ closes.dropLast maShort ∧
        smaQ closes maShort < smaQ closes maLong →
      on_calculate maShort maLong maxPos lotSize closes pos =
        .exitLong pos "ma_cross_sell") ∧
    (¬(pos = 0 ∧ smaQ closes.dropLast maShort ≤ smaQ closes.dropLast maLong ∧
          smaQ closes maLong < smaQ closes maShort ∧
          0 < Int.fdiv maxPos lotSize) →
     ¬(0 < pos ∧ smaQ closes.dropLast maLong ≤ smaQ closes.dropLast maShort ∧
          smaQ closes maShort < smaQ closes maLong) →
      on_calculate maShort maLong maxPos lotSize closes pos = .hold) := by
  rw [on_calculate_reduce maShort maLong maxPos lotSize closes pos hshort
    hsl hlen]
  refine ⟨?_, ?_, ?_⟩
  · rintro ⟨hp, h1, h2, h3⟩
    simp [hp, h1, h2, h3]
  · rintro ⟨hp, h1, h2⟩
    simp [hp.ne.symm, hp, h1, h2]
  · intro hno1 hno2
    split_ifs <;> tauto

theorem on_calculate_spec_witness :
    (2 ≤ 2 ∧ 2 ≤ 3 ∧ 3 + 1 ≤ ([4, 1, 2, 9] : List ℚ).length) ∧
    ((0 : ℚ) = 0 ∧
      smaQ ([4, 1, 2, 9] : List ℚ).dropLast 2 ≤
        smaQ ([4, 1, 2, 9] : List ℚ).dropLast 3 ∧
      smaQ ([4, 1, 2, 9] : List ℚ) 3 < smaQ ([4, 1, 2, 9] : List ℚ) 2 ∧
      0 < Int.fdiv 1000 100) ∧
    on_calculate 2 3 1000 100 ([4, 1, 2, 9] : List ℚ) 0 =
      .enterLong ((Int.fdiv 1000 100 * 100 : ℤ) : ℚ) "ma_cross_buy" := by
  refine ⟨⟨by norm_num, by norm_num, by norm_num⟩, ?_, ?_⟩
  · refine ⟨rfl, ?_, ?_, by decide⟩
    · show smaQ [4, 1, 2] 2 ≤ smaQ [4, 1, 2] 3
      norm_num [smaQ, lastN]
    · norm_num [smaQ, lastN]
  · exact (on_calculate_spec 2 3 1000 100 [4, 1, 2, 9] 0 (by norm_num)
      (by norm_num) (by norm_num)).1
      ⟨rfl, by norm_num [smaQ, lastN], by norm_num [smaQ, lastN], by decide⟩

end DualMAHK

namespace DualThrustHK

/-- `np.max` over a list (junk value `0` on the empty list, on which the
NumPy call raises; all uses are guarded by `2 ≤ days`). -/
def npMax : List ℚ → ℚ
  | [] => 0
  | h :: t => t.foldl max h

/-- `np.min` over a list (same convention as `npMax`). -/
def npMin : List ℚ → ℚ
  | [] => 0
  | h :: t => t.foldl min h

/-- `range_val = max(hh - lc, hc - ll)` of `StraDualThrustHK.on_calculate`,
where `hh`, `ll`, `hc`, `lc` are taken over the `[:-1]` slices of the last
`days` highs, lows and closes. -/
def dt_range (days : ℕ) (highs lows closesFull : List ℚ) : ℚ :=
  let closes := lastN closesFull days
  let hh := npMax (lastN highs days).dropLast
  let ll := npMin (lastN lows days).dropLast
  let hc := npMax closes.dropLast
  let lc := npMin closes.dropLast
  max (hh - lc) (hc - ll)

/-- `upper_band = current_open + k1 * range_val` (the open of the last bar
of the full array, `kline.opens[-1]`). -/
def dt_upper (days : ℕ) (k1 : ℚ) (opens highs lows closesFull : List ℚ) : ℚ :=
  opens.getLastD 0 + k1 * dt_range days highs lows closesFull

/-- `lower_band = current_open - k2 * range_val`. -/
def dt_lower (days : ℕ) (k2 : ℚ) (opens highs lows closesFull : List ℚ) : ℚ :=
  opens.getLastD 0 - k2 * dt_range days highs lows closesFull

/-- `ma20 = talib.SMA(closes, 20)[-1] if len(closes) >= 20 else
current_price`, over the sliced closes. -/
def dt_ma20 (days : ℕ) (closesFull : List ℚ) : ℚ :=
  let closes := lastN closesFull days
  if 20 ≤ closes.length then smaQ closes 20 else closes.getLastD 0

/-- The breakout signal of `on_calculate` before the stop-loss adjustment:
`1` on `current_price > upper_band and current_price > ma20`, `-1` on
`current_price < lower_band and current_price < ma20`, else `0`. -/
def dt_raw_signal (days : ℕ) (k1 k2 : ℚ)
    (opens highs lows closesFull : List ℚ) : ℤ :=
  let cp := (lastN closesFull days).getLastD 0
  if dt_upper days k1 opens highs lows closesFull < cp ∧
      dt_ma20 days closesFull < cp then 1
  else if cp < dt_lower days k2 opens highs lows closesFull ∧
      cp < dt_ma20 days closesFull then -1
  else 0

/-- The signal after the stop-loss block: with a nonzero position and a
positive recorded entry price, a long below `entry * (1 - stop_loss)` or a
short above `entry * (1 + stop_loss)` forces the signal to `0`. -/
def dt_signal (days : ℕ) (k1 k2 : ℚ) (stopLoss : ℚ)
    (opens highs lows closesFull : List ℚ)
    (currentPos entryPrice : ℚ) : ℤ :=
  let cp := (lastN closesFull days).getLastD 0
  let raw := dt_raw_signal days k1 k2 opens highs lows closesFull
  if currentPos ≠ 0 ∧ 0 < entryPrice then
    if 0 < currentPos ∧ cp < entryPrice * (1 - stopLoss) then 0
    else if currentPos < 0 ∧ entryPrice * (1 + stopLoss) < cp then 0
    else raw
  else raw

/-- What `StraDualThrustHK.on_calculate` does on one callback: the final
signal, the (unused) `target_pos` variable, and the order action taken. -/
structure DTOutcome where
  signal : ℤ
  targetPos : ℤ
  action : StrategyAction
deriving DecidableEq, Repr

/-- `StraDualThrustHK.on_calculate`: `none` on the early data-sufficiency
returns, otherwise the signal/target/action triple.  The lot size is the
hard-coded `100` of the strategy; `maxPos` is `self.__max_pos__`. -/
def on_calculate (days : ℕ) (k1 k2 : ℚ) (maxPos : ℤ) (stopLoss : ℚ)
    (opens highs lows closesFull : List ℚ)
    (currentPos entryPrice : ℚ) : Option DTOutcome :=
  if closesFull.length < days then none
  else if (lastN closesFull days).length < days then none
  else
    let signal := dt_signal days k1 k2 stopLoss opens highs lows closesFull
      currentPos entryPrice
    let targetPos : ℤ := if signal = 1 then maxPos else 0
    let action : StrategyAction :=
      if currentPos = 0 then
        if signal = 1 then
          let lots := Int.fdiv maxPos 100
          if 0 < lots then .enterLong ((lots * 100 : ℤ) : ℚ) "enterlong"
          else .hold
        else .hold
      else if 0 < currentPos then
        if signal = -1 ∨ signal = 0 then .exitLong currentPos "exitlong"
        else .hold
      else .hold
    some ⟨signal, targetPos, action⟩

/-- Position change effected by an action on the engine-held position. -/
def applyAction (pos : ℚ) : StrategyAction → ℚ
  | .enterLong qty _ => pos + qty
  | .exitLong qty _ => pos - qty
  | .hold => pos

/-- Length of an `arr[-n:]` slice when `n` does not exceed the array. -/
theorem lastN_length (l : List ℚ) (n : ℕ) (h : n ≤ l.length) :
    (lastN l n).length = n := by
  simp [lastN]; omega

/-- The claim's band range, stated in the spec's words: `hh`, `ll`, `hc`,
`lc` taken over the first `days - 1` of the last `days` bars,
`range = max(hh - lc, hc - ll)`. -/
def claimRange (days : ℕ) (highs lows closesFull : List ℚ) : ℚ :=
  max (npMax ((lastN highs days).take (days - 1)) -
        npMin ((lastN closesFull days).take (days - 1)))
      (npMax ((lastN closesFull days).take (days - 1)) -
        npMin ((lastN lows days).take (days - 1)))

/-- The claim's moving-average filter: the 20-period SMA of the closes, or
the last close itself when fewer than 20 closes exist. -/
def claimMa20 (days : ℕ) (closesFull : List ℚ) : ℚ :=
  if 20 ≤ days then smaQ (lastN closesFull days) 20
  else (lastN closesFull days).getLastD 0

theorem dropLast_lastN (l : List ℚ) (days : ℕ) (h : days ≤ l.length) :
    (lastN l days).dropLast = (lastN l days).take (days - 1) := by
  rw [List.dropLast_eq_take, lastN_length l days h]

/-- C3: the breakout bands equal the claim's formulas — upper band
`open + k1 * range`, lower band `open - k2 * range` with
`range = max(hh - lc, hc - ll)` over the first `days - 1` of the last
`days` bars — and the long signal is raised exactly when the last close is
strictly above the upper band and strictly above the 20-period SMA filter
(the last close itself when fewer than 20 closes exist). -/
theorem dt_bands_and_signal (days : ℕ) (k1 k2 : ℚ)
    (opens highs lows closesFull : List ℚ)
    (hdays : 2 ≤ days) (hlc : days ≤ closesFull.length)
    (hlh : days ≤ highs.length) (hll : days ≤ lows.length) :
    dt_upper days k1 opens highs lows closesFull =
      opens.getLastD 0 + k1 * claimRange days highs lows closesFull ∧
    dt_lower days k2 opens highs lows closesFull =
      opens.getLastD 0 - k2 * claimRange days highs lows closesFull ∧
    (dt_raw_signal days k1 k2 opens highs lows closesFull = 1 ↔
      dt_upper days k1 opens highs lows closesFull <
          (lastN closesFull days).getLastD 0 ∧
        claimMa20 days closesFull < (lastN closesFull days).getLastD 0) := by
  have hr : dt_range days highs lows closesFull =
      claimRange days highs lows closesFull := by
    rw [dt_range, claimRange, dropLast_lastN highs days hlh,
      dropLast_lastN lows days hll, dropLast_lastN closesFull days hlc]
  have hm : dt_ma20 days closesFull = claimMa20 days closesFull := by
    rw [dt_ma20, claimMa20, lastN_length closesFull days hlc]
  refine ⟨by rw [dt_upper, hr], by rw [dt_lower, hr], ?_⟩
  rw [dt_raw_signal, hm]
  constructor
  · intro h
    by_cases hc : dt_upper days k1 opens highs lows closesFull <
        (lastN closesFull days).getLastD 0 ∧
        claimMa20 days closesFull < (lastN closesFull days).getLastD 0
    · exact hc
    · rw [if_neg hc] at h
      split_ifs at h <;> omega
  · intro h
    rw [if_pos h]

theorem dt_bands_and_signal_witness :
    (2 ≤ 2 ∧ 2 ≤ ([1, 2] : List ℚ).length) ∧
    dt_upper 2 1 ([10, 10] : List ℚ) ([3, 4] : List ℚ) ([1, 2] : List ℚ)
        ([2, 3] : List ℚ) =
      ([10, 10] : List ℚ).getLastD 0 +
        1 * claimRange 2 ([3, 4] : List ℚ) ([1, 2] : List ℚ)
          ([2, 3] : List ℚ) := by
  refine ⟨⟨le_refl 2, by norm_num⟩, ?_⟩
  exact (dt_bands_and_signal 2 1 1 [10, 10] [3, 4] [1, 2] [2, 3]
    (le_refl 2) (by norm_num) (by norm_num) (by norm_num)).1

/-- C4: with a nonzero position and a positive recorded entry price, a long
below `entry * (1 - stop_loss)` or a short above `entry * (1 + stop_loss)`
forces the final signal to `0`, and a long position is then exited in
full. -/
theorem dt_stop_loss (days : ℕ) (k1 k2 : ℚ) (maxPos : ℤ) (stopLoss : ℚ)
    (opens highs lows closesFull : List ℚ) (pos entry : ℚ)
    (hlc : days ≤ closesFull.length) (hpos : pos ≠ 0) (hentry : 0 < entry)
    (hstop :
      (0 < pos ∧
        (lastN closesFull days).getLastD 0 < entry * (1 - stopLoss)) ∨
      (pos < 0 ∧
        entry * (1 + stopLoss) < (lastN closesFull days).getLastD 0)) :
    ∃ out, on_calculate days k1 k2 maxPos stopLoss opens highs lows
        closesFull pos entry = some out ∧
      out.signal = 0 ∧
      (0 < pos → out.action = .exitLong pos "exitlong") := by
  have hsig : dt_signal days k1 k2 stopLoss opens highs lows closesFull
      pos entry = 0 := by
    rw [dt_signal]
    rcases hstop with ⟨hp, hc⟩ | ⟨hp, hc⟩
    · rw [if_pos ⟨hpos, hentry⟩, if_pos ⟨hp, hc⟩]
    · rw [if_pos ⟨hpos, hentry⟩, if_neg (by rintro ⟨h1, _⟩; linarith),
        if_pos ⟨hp, hc⟩]
  rw [on_calculate, if_neg (by omega),
    if_neg (by rw [lastN_length closesFull days hlc]; omega)]
  refine ⟨_, rfl, hsig, fun hp => ?_⟩
  show (if pos = 0 then _ else if 0 < pos then
      if dt_signal days k1 k2 stopLoss opens highs lows closesFull
          pos entry = -1 ∨
        dt_signal days k1 k2 stopLoss opens highs lows closesFull
          pos entry = 0 then StrategyAction.exitLong pos "exitlong"
      else StrategyAction.hold
    else StrategyAction.hold) = StrategyAction.exitLong pos "exitlong"
  rw [if_neg hpos, if_pos hp, if_pos (Or.inr hsig)]

theorem dt_stop_loss_witness :
    (2 ≤ ([100, 80] : List ℚ).length ∧ (100 : ℚ) ≠ 0 ∧ (0 : ℚ) < 95 ∧
      ((0 : ℚ) < 100 ∧
        (lastN ([100, 80] : List ℚ) 2).getLastD 0 <
          95 * (1 - (5 / 100 : ℚ)))) ∧
    ∃ out, on_calculate 2 1 1 1000 (5 / 100) ([1, 1] : List ℚ)
        ([101, 81] : List ℚ) ([99, 79] : List ℚ) ([100, 80] : List ℚ)
        100 95 = some out ∧
      out.signal = 0 ∧
      ((0 : ℚ) < 100 → out.action = .exitLong 100 "exitlong") := by
  have hc : (lastN ([100, 80] : List ℚ) 2).getLastD 0 <
      95 * (1 - (5 / 100 : ℚ)) := by norm_num [lastN]
  refine ⟨⟨by norm_num, by norm_num, by norm_num, by norm_num, hc⟩, ?_⟩
  exact dt_stop_loss 2 1 1 1000 (5 / 100) [1, 1] [101, 81] [99, 79]
    [100, 80] 100 95 (by norm_num) (by norm_num) (by norm_num)
    (Or.inl ⟨by norm_num, hc⟩)

/-- Resulting action of a callback, `hold` on the early returns. -/
def outcomeAction : Option DTOutcome → StrategyAction
  | none => .hold
  | some o => o.action

/-- C10: the breakout strategy never establishes a short position — on a
breakdown signal the `target_pos` variable is forced to `0`, and the only
order paths are enter-long from flat on signal `1` and exit-long of the
current quantity — so a non-negative position stays non-negative across
every callback. -/
theorem dt_never_short (days : ℕ) (k1 k2 : ℚ) (maxPos : ℤ) (stopLoss : ℚ)
    (opens highs lows closesFull : List ℚ) (pos entry : ℚ)
    (hpos : 0 ≤ pos) :
    0 ≤ applyAction pos (outcomeAction (on_calculate days k1 k2 maxPos
      stopLoss opens highs lows closesFull pos entry)) ∧
    (∀ out, on_calculate days k1 k2 maxPos stopLoss opens highs lows
        closesFull pos entry = some out →
      out.signal = -1 → out.targetPos = 0) := by
  constructor
  · rw [on_calculate]
    by_cases h1 : closesFull.length < days
    · rw [if_pos h1]; simpa [outcomeAction, applyAction] using hpos
    rw [if_neg h1]
    by_cases h2 : (lastN closesFull days).length < days
    · rw [if_pos h2]; simpa [outcomeAction, applyAction] using hpos
    rw [if_neg h2]
    simp only [outcomeAction]
    by_cases hp0 : pos = 0
    · by_cases hsig : dt_signal days k1 k2 stopLoss opens highs lows
          closesFull pos entry = 1
      · by_cases hlots : 0 < Int.fdiv maxPos 100
        · simp only [if_pos hp0, if_pos hsig, if_pos hlots, applyAction]
          have hl : (0 : ℤ) ≤ Int.fdiv maxPos 100 * 100 :=
            mul_nonneg hlots.le (by norm_num)
          have hq : (0 : ℚ) ≤ ((Int.fdiv maxPos 100 * 100 : ℤ) : ℚ) := by
            exact_mod_cast hl
          linarith
        · simp only [if_pos hp0, if_pos hsig, if_neg hlots, applyAction]
          exact hpos
      · simp only [if_pos hp0, if_neg hsig, applyAction]
        exact hpos
    · by_cases hpp : 0 < pos
      · by_cases hexit : dt_signal days k1 k2 stopLoss opens highs lows
            closesFull pos entry = -1 ∨
          dt_signal days k1 k2 stopLoss opens highs lows closesFull pos
            entry = 0
        · simp only [if_neg hp0, if_pos hpp, if_pos hexit, applyAction]
          linarith
        · simp only [if_neg hp0, if_pos hpp, if_neg hexit, applyAction]
          exact hpos
      · simp only [if_neg hp0, if_neg hpp, applyAction]
        exact hpos
  · intro out hout hsig
    rw [on_calculate] at hout
    by_cases h1 : closesFull.length < days
    · rw [if_pos h1] at hout; exact absurd hout (by simp)
    rw [if_neg h1] at hout
    by_cases h2 : (lastN closesFull days).length < days
    · rw [if_pos h2] at hout; exact absurd hout (by simp)
    rw [if_neg h2] at hout
    obtain rfl := Option.some_inj.mp hout
    simp only at hsig ⊢
    simp [hsig]

theorem dt_never_short_witness :
    (0 : ℚ) ≤ 0 ∧
    0 ≤ applyAction 0 (outcomeAction (on_calculate 2 1 1 1000 (5 / 100)
      ([1, 1] : List ℚ) ([101, 81] : List ℚ) ([99, 79] : List ℚ)
      ([100, 80] : List ℚ) 0 0)) := by
  exact ⟨le_refl 0,
    (dt_never_short 2 1 1 1000 (5 / 100) [1, 1] [101, 81] [99, 79]
      [100, 80] 0 0 (le_refl 0)).1⟩

end DualThrustHK

end Wtpy
